import Mathlib

/-!
Verification of the jsonlogic rule evaluator (`jsonlogic.go`).

The Go code works over `interface{}` values produced by JSON decoding
(`nil`, `bool`, `float64`, `string`, `[]interface{}`,
`map[string]interface{}`), plus Go `int` values that can occur when a data
tree is built natively (the code normalizes those in `getVarFromData`).

Modelling conventions:
* `Value` is a tagged union of those kinds.  `Value.null` stands for the
  nil interface (JSON `null` and "absent" alike, exactly as in the Go
  code, where both are the nil interface).
* JSON numbers (`float64`) are modelled as exact rationals `ℚ`.
  Floating-point rounding is not modelled: `strconv.ParseFloat` is
  modelled as an exact decimal/exponent parser and
  `strconv.FormatFloat(_, 'f', -1, 64)` as the exact terminating decimal
  expansion (fuel-bounded past any float64's expansion length).
* Fallible code returns `Option`: `none` models a Go run-time panic
  (failed type assertion, slice index out of range, comparison of
  non-comparable interfaces).  `some` is a normal return.
* Go objects (`map[string]interface{}`) are modelled as association
  lists; a lookup of an absent key yields the nil interface, i.e.
  `Value.null`.  Go's map iteration order is not deterministic; `apply`
  reads exactly one key, modelled as the first entry (single-key rule
  objects, the documented form, are unaffected).
-/

inductive Value where
  | null : Value
  | bool : Bool → Value
  | num : ℚ → Value
  | int : ℤ → Value
  | str : String → Value
  | arr : List Value → Value
  | obj : List (String × Value) → Value

mutual

def decValue : (a b : Value) → Decidable (a = b) := fun a b => by
  cases a <;> cases b <;>
    first
      | exact isTrue rfl
      | (apply isFalse; intro h; exact Value.noConfusion h)
      | skip
  case bool.bool x y =>
    exact match decEq x y with
      | isTrue h => isTrue (by rw [h])
      | isFalse h => isFalse (by intro hh; injection hh; contradiction)
  case num.num x y =>
    exact match decEq x y with
      | isTrue h => isTrue (by rw [h])
      | isFalse h => isFalse (by intro hh; injection hh; contradiction)
  case int.int x y =>
    exact match decEq x y with
      | isTrue h => isTrue (by rw [h])
      | isFalse h => isFalse (by intro hh; injection hh; contradiction)
  case str.str x y =>
    exact match decEq x y with
      | isTrue h => isTrue (by rw [h])
      | isFalse h => isFalse (by intro hh; injection hh; contradiction)
  case arr.arr x y =>
    exact match decValueList x y with
      | isTrue h => isTrue (by rw [h])
      | isFalse h => isFalse (by intro hh; injection hh; contradiction)
  case obj.obj x y =>
    exact match decValueObj x y with
      | isTrue h => isTrue (by rw [h])
      | isFalse h => isFalse (by intro hh; injection hh; contradiction)

def decValueList : (as bs : List Value) → Decidable (as = bs)
  | [], [] => isTrue rfl
  | [], _ :: _ => isFalse (fun h => List.noConfusion h)
  | _ :: _, [] => isFalse (fun h => List.noConfusion h)
  | a :: as, b :: bs =>
    match decValue a b, decValueList as bs with
    | isTrue h1, isTrue h2 => isTrue (by rw [h1, h2])
    | isFalse h1, _ => isFalse (by intro hh; injection hh with hh1 hh2; exact h1 hh1)
    | _, isFalse h2 => isFalse (by intro hh; injection hh with hh1 hh2; exact h2 hh2)

def decValueObj : (as bs : List (String × Value)) → Decidable (as = bs)
  | [], [] => isTrue rfl
  | [], _ :: _ => isFalse (fun h => List.noConfusion h)
  | _ :: _, [] => isFalse (fun h => List.noConfusion h)
  | (k1, v1) :: as, (k2, v2) :: bs =>
    match decEq k1 k2, decValue v1 v2, decValueObj as bs with
    | isTrue h1, isTrue h2, isTrue h3 => isTrue (by rw [h1, h2, h3])
    | isFalse h1, _, _ =>
      isFalse (by intro hh; injection hh with hh1 hh2; injection hh1; contradiction)
    | _, isFalse h2, _ =>
      isFalse (by intro hh; injection hh with hh1 hh2; injection hh1; contradiction)
    | _, _, isFalse h3 => isFalse (by intro hh; injection hh with hh1 hh2; exact h3 hh2)

end

instance : DecidableEq Value := decValue

/-- The `reflect.Kind` of the dynamic type held by an interface value
(`reflect.ValueOf(x).Kind()`; the nil interface has kind `Invalid`). -/
inductive GoKind where
  | kinvalid | kbool | kfloat | kint | kstring | kslice | kmap
deriving DecidableEq

def goKind : Value → GoKind
  | .null => .kinvalid
  | .bool _ => .kbool
  | .num _ => .kfloat
  | .int _ => .kint
  | .str _ => .kstring
  | .arr _ => .kslice
  | .obj _ => .kmap

/-- `isBool` from the source: non-nil and of kind `Bool`. -/
def isBool (v : Value) : Bool := goKind v == .kbool

/-- `isString` from the source. -/
def isString (v : Value) : Bool := goKind v == .kstring

/-- `isNumber` from the source: kind `Int` or kind `Float64`. -/
def isNumber (v : Value) : Bool := goKind v == .kint || goKind v == .kfloat

/-- `isPrimitive` from the source: bool, string or number. -/
def isPrimitive (v : Value) : Bool := isBool v || isString v || isNumber v

/-- `isMap` from the source. -/
def isMap (v : Value) : Bool := goKind v == .kmap

/-- `isSlice` from the source. -/
def isSlice (v : Value) : Bool := goKind v == .kslice

/-- Digits of a decimal literal folded to a natural number. -/
def digitsToNat (ds : List Char) : ℕ :=
  ds.foldl (fun a c => 10 * a + (c.toNat - 48)) 0

/-- `strconv.ParseFloat(s, 64)` modelled exactly over `ℚ`: optional sign,
decimal digits with an optional fractional part (digits required on at
least one side of the dot), and an optional `e`/`E` exponent.  `none`
models a parse error (the callers use `w, _ = strconv.ParseFloat(...)`,
which leaves `w = 0` on error).  Binary rounding, `Inf`/`NaN` spellings
and hexadecimal floats are not modelled. -/
def parseFloat (s : String) : Option ℚ :=
  let cs := s.data
  let sgncs : ℚ × List Char :=
    match cs with
    | '-' :: rest => (-1, rest)
    | '+' :: rest => (1, rest)
    | _ => (1, cs)
  let sgn := sgncs.1
  let cs1 := sgncs.2
  let ip := cs1.takeWhile Char.isDigit
  let cs2 := cs1.dropWhile Char.isDigit
  let fpcs : List Char × List Char :=
    match cs2 with
    | '.' :: rest => (rest.takeWhile Char.isDigit, rest.dropWhile Char.isDigit)
    | _ => ([], cs2)
  let fp := fpcs.1
  let cs3 := fpcs.2
  if ip.isEmpty && fp.isEmpty then none
  else
    let mant : ℚ := (digitsToNat ip : ℚ) + (digitsToNat fp : ℚ) / (10 : ℚ) ^ fp.length
    match cs3 with
    | [] => some (sgn * mant)
    | e :: rest =>
      if e = 'e' ∨ e = 'E' then
        let esgnrest : Bool × List Char :=
          match rest with
          | '-' :: r => (true, r)
          | '+' :: r => (false, r)
          | _ => (false, rest)
        let ed := esgnrest.2.takeWhile Char.isDigit
        let rest2 := esgnrest.2.dropWhile Char.isDigit
        if ed.isEmpty ∨ !rest2.isEmpty then none
        else
          let ex : ℚ := (10 : ℚ) ^ digitsToNat ed
          some (sgn * mant * (if esgnrest.1 then ex⁻¹ else ex))
      else none

/-- Floor of a rational, computed directly (`q.den` is positive, so floor
division of the numerator by the denominator is the floor). -/
def ratFloor (q : ℚ) : ℤ := q.num.fdiv q.den

/-- Go's `int(f)` conversion from `float64`: truncation toward zero. -/
def goInt (q : ℚ) : ℤ := q.num.tdiv q.den

/-- Decimal digits of the fractional part `q` (`0 ≤ q < 1`), fuel-bounded.
The expansion of any value a Go `float64` can hold terminates well before
the fuel runs out. -/
def fracDigits : ℚ → ℕ → List Char
  | _, 0 => []
  | q, fuel + 1 =>
    if q = 0 then []
    else
      let q10 := q * 10
      let d := ratFloor q10
      Nat.digitChar d.toNat :: fracDigits (q10 - (d : ℚ)) fuel

/-- `strconv.FormatFloat(f, 'f', -1, 64)` modelled over `ℚ`: sign, integer
part, and the exact fractional expansion with no trailing zeros (`-1`
precision prints the shortest form; on the exact rationals of this model
that is the terminating expansion itself). -/
def formatFloat (q : ℚ) : String :=
  let sgn := if q < 0 then "-" else ""
  let n := |q|
  let ip := (ratFloor n).toNat
  let fp := fracDigits (n - (ratFloor n : ℚ)) 400
  sgn ++ ip.repr ++ (if fp.isEmpty then "" else "." ++ String.mk fp)

/-- Go's `<` on strings, byte-wise lexicographic.  UTF-8 byte order
coincides with code-point order, so the comparison is stated over the
code points of the character lists. -/
def goStrLtList : List Char → List Char → Bool
  | [], [] => false
  | [], _ :: _ => true
  | _ :: _, [] => false
  | a :: as, b :: bs => if a = b then goStrLtList as bs else decide (a.toNat < b.toNat)

/-- Go's `<` on `String`. -/
def goStrLt (s t : String) : Bool := goStrLtList s.data t.data

/-- `less(a, b)` from the source (it returns `w > v` with `v = a` and `w`
the coerced `b`).  `none` models the panic of an unchecked type assertion
(`b.(float64)` when `b` is neither string nor `float64`; `b.(string)`
when `a` is a string and `b` is neither number nor string; `b.(float64)`
when `b` is an `int`). -/
def less (a b : Value) : Option Bool :=
  match a with
  | .num v =>
    match b with
    | .str s => some (decide ((parseFloat s).getD 0 > v))
    | .num w => some (decide (w > v))
    | _ => none
  | .str v =>
    match b with
    | .num w => some (goStrLt v (formatFloat w))
    | .str w => some (goStrLt v w)
    | _ => none
  | _ => some false

/-- `equals(a, b)` from the source.  Numeric `a`: `b` is parsed from a
string or asserted to `float64` (panic otherwise).  String `a`: `b` is
asserted to string (panic otherwise).  Any other `a`: `false`. -/
def equals (a b : Value) : Option Bool :=
  match a with
  | .num v =>
    match b with
    | .str s => some (decide (v = (parseFloat s).getD 0))
    | .num w => some (decide (v = w))
    | _ => none
  | .str v =>
    match b with
    | .str w => some (decide (v = w))
    | _ => none
  | _ => some false

/-- `hardEquals(a, b)` from the source: same `reflect.Kind` required, then
`equals`. -/
def hardEquals (a b : Value) : Option Bool :=
  if goKind a = goKind b then equals a b else some false

/-- Short-circuiting `||` over panic-aware booleans (Go evaluates the
right operand only when the left one is `false`). -/
def orOpt (x : Option Bool) (y : Unit → Option Bool) : Option Bool :=
  x.bind fun b => if b then some true else y ()

/-- Short-circuiting `&&` over panic-aware booleans. -/
def andOpt (x : Option Bool) (y : Unit → Option Bool) : Option Bool :=
  x.bind fun b => if b then y () else some false

/-- `between(operator, values, data)` from the source (the three-operand
chained comparison; only `<` and `<=` are interpreted, anything else is
`false`). -/
def between (operator : String) (values : List Value) : Option Value :=
  match values with
  | a :: b :: c :: _ =>
    if operator = "<" then
      (andOpt (less a b) (fun _ => less b c)).map .bool
    else if operator = "<=" then
      (andOpt (orOpt (less a b) (fun _ => equals a b))
        (fun _ => orOpt (less b c) (fun _ => equals b c))).map .bool
    else some (.bool false)
  | _ => none

/-- `unary(operator, value)` from the source.  `b` defaults to `false`,
is set from a bool or from `value.(float64) > 0` for numbers (panicking
on a Go `int`), and `!` negates. -/
def unary (operator : String) (value : Value) : Option Value :=
  match value with
  | .int _ => none
  | _ =>
    let b : Bool :=
      match value with
      | .bool b => b
      | .num q => decide (q > 0)
      | _ => false
    some (.bool (if operator = "!" then !b else b))

/-- The loop of `_and` from the source, with the running boolean AND `r`
(updated only by bool operands) and the running numeric value `v`
(initialized to `0`, updated by `value.(float64) > v`, panicking when an
operand is neither bool nor `float64`). -/
def andLoop : Bool → ℚ → List Value → Option Value
  | r, v, [] => if r = true ∧ v > 0 then some (.num v) else some (.bool r)
  | r, v, x :: rest =>
    match x with
    | .bool b => andLoop (r && b) v rest
    | .num q => andLoop r (if q > v then q else v) rest
    | _ => none

/-- `_and(values)` from the source. -/
def _and (values : List Value) : Option Value := andLoop true 0 values

/-- `_or(values)` from the source: first bool `true` yields `true`, first
positive number yields that number (as stored), a number operand that is a
Go `int` panics at `value.(float64)`, anything else is skipped; `false`
when the scan finds nothing. -/
def _or : List Value → Option Value
  | [] => some (.bool false)
  | x :: rest =>
    match x with
    | .bool true => some (.bool true)
    | .int _ => none
    | .num q => if q > 0 then some (.num q) else _or rest
    | _ => _or rest

/-- `strings.Contains(hay, ndl)` over character lists: some suffix of the
haystack starts with the needle. -/
def containsSubstr : List Char → List Char → Bool
  | hay, ndl =>
    if ndl.isPrefixOf hay then true
    else
      match hay with
      | [] => false
      | _ :: t => containsSubstr t ndl

/-- Go's `==` on two interface values: `false` when the dynamic types
differ, value equality when they agree, and a run-time panic (`none`)
when both sides hold the same non-comparable type (slices or maps). -/
def goEq (a b : Value) : Option Bool :=
  match a, b with
  | .arr _, .arr _ => none
  | .obj _, .obj _ => none
  | a, b => some (decide (a = b))

/-- The membership loop of `_in`: stops at the first element equal to the
needle, propagating a comparison panic. -/
def inList (needle : Value) : List Value → Option Bool
  | [] => some false
  | v :: rest =>
    match goEq v needle with
    | none => none
    | some true => some true
    | some false => inList needle rest

/-- `_in(value, values)` from the source: substring containment for a
string haystack (panicking when the needle is not a string), the equality
scan for a slice haystack, and a panic (`values.([]interface{})`) for any
other haystack. -/
def _in (value values : Value) : Option Bool :=
  match values with
  | .str h =>
    match value with
    | .str n => some (containsSubstr h.data n.data)
    | _ => none
  | .arr l => inList value l
  | _ => none

/-- Go map indexing `data[key]`: the nil interface (`Value.null`) when the
key is absent. -/
def lookupGo (l : List (String × Value)) (key : String) : Value :=
  match l.find? (fun p => p.1 == key) with
  | some p => p.2
  | none => .null

/-- The `switch parsedValue.(type)` at the end of `getVarFromData`: Go
`int` values are normalized to `float64`. -/
def normalizeNum : Value → Value
  | .int n => .num (n : ℚ)
  | v => v

/-- `getVarFromData(value, data, originalValue)` from the source: `nil`
for a non-map `data`; otherwise the map lookup, with the second element
of a slice-form `originalValue` substituted when the lookup yields `nil`
(`originalValue.([]interface{})[1]` panics — `none` — when that slice has
fewer than two elements), `nil` kept as `nil`, and `int` results
normalized to `float64`. -/
def getVarFromData (key : String) (data orig : Value) : Option Value :=
  match data with
  | .obj l =>
    let pv := lookupGo l key
    let pvSub : Option Value :=
      if pv = .null then
        match orig with
        | .arr ol => ol.get? 1
        | _ => some pv
      else some pv
    pvSub.bind fun p => if p = .null then some .null else some (normalizeNum p)
  | _ => some .null

/-- `strings.Split(s, ".")` over character lists: the (possibly empty)
segments between dots; the empty string yields one empty segment. -/
def splitDot : List Char → List (List Char)
  | [] => [[]]
  | c :: rest =>
    let r := splitDot rest
    if c = '.' then [] :: r
    else
      match r with
      | h :: t => (c :: h) :: t
      | [] => [[c]]

/-- The dotted-path walk of `getVar`: each segment is resolved by
`getVarFromData` against the value produced by the previous segment. -/
def varPath (s : String) (value data : Value) : Option Value :=
  (splitDot s.data).foldlM (fun d part => getVarFromData (String.mk part) d value) data

/-- `getVar(value, data)` from the source.  A nil `data` returns the
operand itself.  A slice operand takes its first element as the path
(`value.([]interface{})[0].(string)` panics on an empty slice or a
non-string first element).  A numeric operand indexes the context
(`int(value.(float64))` panics on a Go `int` operand;
`data.([]interface{})[index]` panics on a non-slice context or an
out-of-range index, and returns the element as stored).  Any other
operand is asserted to string and resolved as a dotted path. -/
def getVar (value data : Value) : Option Value :=
  match data with
  | .null => some value
  | _ =>
    match value with
    | .arr l =>
      match l.get? 0 with
      | some (.str s) => varPath s value data
      | _ => none
    | .int _ => none
    | .num q =>
      match data with
      | .arr l =>
        let idx := goInt q
        if idx < 0 then none else l.get? idx.toNat
      | _ => none
    | .str s => varPath s value data
    | _ => none

/-- The ternary (`?:`) branch of `operation`: `parsed[0].(bool)` (panic
when missing or not a bool), then `parsed[1]` or `parsed[2]` (panic when
missing). -/
def ternary (parsed : List Value) : Option Value :=
  match parsed with
  | .bool c :: rest => if c then rest.get? 0 else rest.get? 1
  | _ :: _ => none
  | [] => none

/-- `operation(operator, values, data)` from the source: `var` first, a
primitive operand goes to `unary`, a one-element operand list goes to
`unary` on `parsed[0].(bool)`, then `and` / `or` / `?:` / `in`, then the
three-operand `between`, then the pairwise comparisons, with `equals` as
the default at the bottom.  A non-primitive non-slice operand panics at
`values.([]interface{})`. -/
def operation (operator : String) (values data : Value) : Option Value :=
  if operator = "var" then getVar values data
  else if isPrimitive values then unary operator values
  else
    match values with
    | .arr parsed =>
      match parsed with
      | [v] =>
        match v with
        | .bool b => unary operator (.bool b)
        | _ => none
      | _ =>
        if operator = "and" then _and parsed
        else if operator = "or" then _or parsed
        else if operator = "?:" then ternary parsed
        else if operator = "in" then
          match parsed with
          | a :: b :: _ => (_in a b).map .bool
          | _ => none
        else if parsed.length = 3 then between operator parsed
        else
          match parsed with
          | a :: b :: _ =>
            if operator = "<" then (less a b).map .bool
            else if operator = ">" then (less b a).map .bool
            else if operator = "<=" then (orOpt (less a b) (fun _ => equals a b)).map .bool
            else if operator = ">=" then (orOpt (less b a) (fun _ => equals a b)).map .bool
            else if operator = "===" then (hardEquals a b).map .bool
            else if operator = "!=" then (equals a b).map (fun e => .bool (!e))
            else if operator = "!==" then (hardEquals a b).map (fun e => .bool (!e))
            else (equals a b).map .bool
          | _ => none
    | _ => none

mutual

/-- `apply(rules, data)` from the source: iterate the rule map once —
modelled as reading the first entry — evaluating
`operation(operator, parseValues(values, data), data)`; an empty map
falls through to `false`, and a non-map argument panics at
`rules.(map[string]interface{})`. -/
def applyFn : Value → Value → Option Value
  | .obj [], _ => some (.bool false)
  | .obj ((operator, values) :: _), data =>
    match parseValues values data with
    | some pv => operation operator pv data
    | none => none
  | _, _ => none

/-- `parseValues(values, data)` from the source: primitives pass through;
a slice is rebuilt with operator-objects replaced by their evaluation;
any other argument panics at `values.([]interface{})`. -/
def parseValues : Value → Value → Option Value
  | .bool b, _ => some (.bool b)
  | .num q, _ => some (.num q)
  | .int n, _ => some (.int n)
  | .str s, _ => some (.str s)
  | .arr l, data => (parseList l data).map .arr
  | _, _ => none

/-- The element loop of `parseValues`: map elements are evaluated with
`apply`, everything else is appended unchanged. -/
def parseList : List Value → Value → Option (List Value)
  | [], _ => some []
  | v :: rest, data =>
    match (match v with | .obj o => applyFn (.obj o) data | _ => some v) with
    | some h => (parseList rest data).map (h :: ·)
    | none => none

end

/-- The kind of the caller's result location, as `convertToResult`
switches on `reflect.TypeOf(result).Elem().Kind()`.  `tiface` is the
default branch with an `interface{}` target (where `reflect.Value.Set`
always succeeds); concretely-typed struct/slice targets in that branch
are not modelled. -/
inductive TargetKind where
  | tfloat | tstring | tbool | tiface
deriving DecidableEq

/-- `convertToResult(result, _result)` from the source: `SetFloat`,
`SetString` and `SetBool` each assert the computed value to the matching
dynamic type and panic otherwise; the default branch returns early on a
nil computed value and otherwise sets the target. -/
def convertToResult (k : TargetKind) (v : Value) : Option Unit :=
  match k with
  | .tfloat => match v with | .num _ => some () | _ => none
  | .tstring => match v with | .str _ => some () | _ => none
  | .tbool => match v with | .bool _ => some () | _ => none
  | .tiface => some ()

/-- The properties of the caller's `result` argument that `Apply`
inspects: whether it is a non-nil pointer, whether its element is
addressable, and the element's kind. -/
structure ResultArg where
  isNonNilPtr : Bool
  addressable : Bool
  kind : TargetKind

/-- `Apply(rules, data, result)` from the source.  The outer `Option`
models a panic during evaluation or binding; the inner `Option String` is
the returned `error` (`none` = the nil error). -/
def Apply (rules data : Value) (r : ResultArg) : Option (Option String) :=
  if !r.isNonNilPtr then some (some "Result must be a pointer")
  else if !r.addressable then some (some "Result must be addressable")
  else
    match rules with
    | .obj o =>
      (applyFn (.obj o) data).bind fun res =>
        (convertToResult r.kind res).map fun _ => none
    | _ => (convertToResult r.kind rules).map fun _ => none

/-! ## Definitions taken from the specification's wording

The definitions below are transcriptions of the spec's sentences, kept
separate from the source embedding above so each claim can be stated as
an agreement (or disagreement) between the two. -/

/-- Spec wording ("if `a` is numeric"/"if `a` is a string"): the operand
is of the one numeric kind of the spec's value model, or a string. -/
def isNumOrStr (v : Value) : Bool :=
  match v with
  | .num _ => true
  | .str _ => true
  | _ => false

/-- Spec wording for `less`/`equals` numeric coercion: `b` itself if
numeric, the parsed value of `b` if it is a string, `0` if that string
is unparsable. -/
def numCoerce (b : Value) : ℚ :=
  match b with
  | .num q => q
  | .str s => (parseFloat s).getD 0
  | _ => 0

/-- Spec wording for `less` string coercion: `b` in its decimal string
form when numeric, else `b` as a string. -/
def strCoerce (b : Value) : String :=
  match b with
  | .num q => formatFloat q
  | .str s => s
  | _ => ""

/-- The claim's description of `less(a, b)`: for numeric `a`, true iff
the numeric coercion of `b` is strictly greater than `a`; for string
`a`, true iff the string coercion of `b` is lexically greater than `a`. -/
def lessSpec (a b : Value) : Bool :=
  match a with
  | .num q => decide (numCoerce b > q)
  | .str s => goStrLt s (strCoerce b)
  | _ => false

/-- The glossary's truthiness: boolean true, or any strictly positive
number. -/
def truthy (v : Value) : Bool :=
  match v with
  | .bool b => b
  | .num q => decide (q > 0)
  | .int n => decide (n > 0)
  | _ => false

/-- The running boolean AND of `_and`, which aggregates only the boolean
operands. -/
def boolAnd (vs : List Value) : Bool :=
  vs.all fun x => match x with | .bool b => b | _ => true

/-- The running numeric value of `_and`: the maximum of the `float64`
operands, seeded with the initial `0`. -/
def numMaxFrom (v : ℚ) (vs : List Value) : ℚ :=
  vs.foldl (fun m x => match x with | .num q => if q > m then q else m | _ => m) v

/-- Operands on which `_and` completes without a type-assertion panic:
booleans and `float64` numbers. -/
def allBoolNum (vs : List Value) : Bool :=
  vs.all fun x => match x with | .bool _ => true | .num _ => true | _ => false

/-- C3's claim as stated: if all operands are truthy and a positive
numeric operand was seen, the result is the maximum number, otherwise
the boolean result. -/
def andClaim (vs : List Value) : Value :=
  if (vs.all truthy) = true ∧ numMaxFrom 0 vs > 0 then .num (numMaxFrom 0 vs)
  else .bool (boolAnd vs)

/-- C3 amended to what the scan computes: the boolean AND aggregates only
the boolean operands; if that AND is true and the numeric maximum (seeded
with 0) is positive, the result is that maximum, else the boolean AND. -/
def andAmended (vs : List Value) : Value :=
  if boolAnd vs = true ∧ numMaxFrom 0 vs > 0 then .num (numMaxFrom 0 vs)
  else .bool (boolAnd vs)

/-- A needle of a comparable kind: Go's `==` on it never panics
(comparing a slice or map against itself is the panicking case). -/
def primitiveNeedle (v : Value) : Bool :=
  match v with
  | .arr _ => false
  | .obj _ => false
  | _ => true

/-- Modelled from the spec: the `merge` operator is implemented only in a
later revision of this repository — only its tests appear alongside the
source (`TestMergeArrayOfArrays`), `operation` has no `merge` branch.
Per the spec, `merge` concatenates its array-of-array operands into one
flat sequence preserving argument order and element order (one-level
flattening); a non-array operand is rejected. -/
def mergeExtract : Value → Option (List Value)
  | .arr l => some l
  | _ => none

/-- Modelled from the spec (see `mergeExtract`): collect the operands'
element lists, rejecting non-array operands. -/
def mergeCollect : List Value → Option (List (List Value))
  | [] => some []
  | v :: rest => (mergeExtract v).bind fun l => (mergeCollect rest).map (l :: ·)

/-- Modelled from the spec (see `mergeExtract`): one-level flattening of
the array operands. -/
def mergeOp (values : List Value) : Option Value :=
  (mergeCollect values).map fun ls => Value.arr ls.flatten

/-! ## Claims -/

/-- C1 (code behavior at the claim's own example): evaluating the rule
`{"var": ["missing.path", 42]}` against the data `{}` returns `null`,
not the supplied default `42`.  The first segment's failed lookup
substitutes the default `42` as the traversal value, but the walk then
continues into it with the second segment, and `42` is not a map, so
`getVarFromData` yields `nil`.  The `[path, default]` fallback therefore
only takes effect when the failing segment is the last one, contradicting
the claim's "when any segment of the path resolves to nothing". -/
theorem var_dotted_default_midpath_returns_null :
    applyFn (.obj [("var", .arr [.str "missing.path", .num 42])]) (.obj []) =
      some .null := rfl

/-- C7 (code behavior at the claim's own example): evaluating
`{"var": ""}` against the scalar context `5` returns `null`, not the
context itself.  `strings.Split("", ".")` yields one empty segment, and
`getVarFromData("", 5, ...)` returns `nil` because `5` is not a map;
`getVar` has no empty-path special case. -/
theorem var_empty_path_scalar_returns_null :
    applyFn (.obj [("var", .str "")]) (.num 5) = some .null := rfl

/-- C7 (supplementary behavior): even against an object context,
`{"var": ""}` resolves to `null` (the lookup of the key `""`), not to the
context itself. -/
theorem var_empty_path_object_returns_null :
    applyFn (.obj [("var", .str "")]) (.obj [("a", .num 1)]) = some .null := rfl

/-- C8 (code behavior at a concrete input): with absent data (the nil
interface), `{"var": ["a", 42]}` evaluates to the operand array
`["a", 42]` itself — neither the explicit default `42` nor `null` —
because `getVar` returns `value` unchanged whenever `data == nil`. -/
theorem var_nil_data_returns_operand :
    applyFn (.obj [("var", .arr [.str "a", .num 42])]) .null =
      some (.arr [.str "a", .num 42]) := rfl

/-- C8 (supplementary behavior): a plain-path lookup against nil data
returns the path string itself rather than `null`. -/
theorem var_nil_data_returns_path_string :
    applyFn (.obj [("var", .str "a")]) .null = some (.str "a") := rfl

/-- C9: the numeric-index form of `var` is unguarded.  For every non-nil
array context and in-range index, the element is returned exactly as
stored (in particular a Go `int` element is not normalized to `float64`);
an out-of-range index and a numeric index against a non-array context
both reach the panic branch (`none`) instead of producing `null` or a
default. -/
theorem var_numeric_index_unguarded :
    (∀ (l : List Value) (i : ℕ) (h : i < l.length),
        getVar (.num (i : ℚ)) (.arr l) = some (l.get ⟨i, h⟩)) ∧
    getVar (.num 1) (.arr [.num 5]) = none ∧
    getVar (.num 0) (.num 5) = none := by
  refine ⟨?_, rfl, rfl⟩
  intro l i h
  have hl : l ≠ [] := by
    intro hnil
    rw [hnil] at h
    simp at h
  have harr : (Value.arr l) = Value.null → False := by intro hc; cases hc
  have hg : goInt ((i : ℕ) : ℚ) = (i : ℤ) := by
    unfold goInt
    rw [Rat.num_natCast, Rat.den_natCast]
    exact Int.tdiv_one _
  cases l with
  | nil => exact absurd rfl hl
  | cons a as =>
    show getVar (.num (i : ℚ)) (.arr (a :: as)) = _
    unfold getVar
    simp only [hg]
    rw [if_neg (by omega)]
    have : ((i : ℤ)).toNat = i := Int.toNat_natCast i
    rw [this]
    exact List.get?_eq_get h

/-- Witness for C9: index `0` into the array context `[int 7]` returns
the stored Go `int` element unnormalized. -/
theorem var_numeric_index_unguarded_witness :
    getVar (.num 0) (.arr [.int 7]) = some (.int 7) := by
  have h := var_numeric_index_unguarded.1 [.int 7] 0 (by decide)
  simpa using h

/-- C4 (counterexample to the claim as stated): evaluating
`{"==": ["x", 2]}` panics — modelled as `none`, the whole call aborting —
rather than producing a recoverable error value from `Apply` (which would
be `some (some msg)`): the `equals` string branch asserts `b.(string)`
unchecked. -/
theorem equals_type_error_apply_panics :
    Apply (.obj [("==", .arr [.str "x", .num 2])]) (.obj [])
      ⟨true, true, .tiface⟩ = none := rfl

/-- C4 (amended): comparing a string `a` against a non-string `b` with
`equals` is a type error that panics (terminating the evaluation, i.e.
the process), rather than silently returning `false`; it is not surfaced
as a recoverable error of the `Apply` call. -/
theorem equals_string_nonstring_panics :
    ∀ (s : String) (b : Value), isString b = false → equals (.str s) b = none := by
  intro s b hb
  cases b <;> simp [isString, goKind] at hb <;> rfl

/-- Witness for C4's amended theorem at a concrete input. -/
theorem equals_string_nonstring_panics_witness :
    equals (.str "x") (.num 2) = none :=
  equals_string_nonstring_panics "x" (.num 2) rfl

/-- C2: for numeric or string operands (the kinds for which the claim
defines a coercion — any other `b` makes the Go code panic on an
unchecked type assertion), `less` agrees with the claim's description
`lessSpec`: numeric `a` compares `a` against the numeric coercion of `b`
(itself if numeric, parsed if a string, `0` if unparsable), string `a`
compares `a` lexically against the string coercion of `b` (decimal form
if numeric, else `b` itself). -/
theorem less_matches_spec :
    ∀ a b : Value, isNumOrStr a = true → isNumOrStr b = true →
      less a b = some (lessSpec a b) := by
  intro a b ha hb
  cases a <;> simp [isNumOrStr] at ha <;>
    cases b <;> simp [isNumOrStr] at hb <;>
      simp [less, lessSpec, numCoerce, strCoerce]

/-- Witness for C2 at concrete inputs: `less(1, 2)` is true and
`less("b", "a")` is false, both via the spec characterization. -/
theorem less_matches_spec_witness :
    less (.num 1) (.num 2) = some true ∧ less (.str "b") (.str "a") = some false := by
  constructor
  · have h := less_matches_spec (.num 1) (.num 2) rfl rfl
    rw [h]
    norm_num [lessSpec, numCoerce]
  · have h := less_matches_spec (.str "b") (.str "a") rfl rfl
    rw [h]
    simp [lessSpec, strCoerce, goStrLt, goStrLtList]

/-- Evaluation of the `_and` loop from an arbitrary running state, when
every operand is a bool or a `float64` (otherwise the loop panics). -/
theorem andLoop_eval :
    ∀ (vs : List Value) (r : Bool) (v : ℚ), allBoolNum vs = true →
      andLoop r v vs =
        some (if (r && boolAnd vs) = true ∧ numMaxFrom v vs > 0
          then .num (numMaxFrom v vs) else .bool (r && boolAnd vs)) := by
  intro vs
  induction vs with
  | nil =>
    intro r v _
    simp only [andLoop, boolAnd, numMaxFrom, List.all_nil, List.foldl_nil, Bool.and_true]
    split <;> rfl
  | cons x rest ih =>
    intro r v hall
    cases x with
    | bool b =>
      have hrest : allBoolNum rest = true := by
        simpa [allBoolNum] using hall
      have := ih (r && b) v hrest
      simp only [andLoop, this, boolAnd, numMaxFrom, List.all_cons, List.foldl_cons,
        Bool.and_assoc]
    | num q =>
      have hrest : allBoolNum rest = true := by
        simpa [allBoolNum] using hall
      have := ih r (if q > v then q else v) hrest
      simp only [andLoop, this, boolAnd, numMaxFrom, List.all_cons, List.foldl_cons,
        Bool.true_and]
    | null => simp [allBoolNum] at hall
    | int n => simp [allBoolNum] at hall
    | str s => simp [allBoolNum] at hall
    | arr l => simp [allBoolNum] at hall
    | obj o => simp [allBoolNum] at hall

/-- C3 (counterexample to the claim as stated): over the operands
`[true, -5, 3]` not every operand is truthy (`-5` is falsy), so the claim
prescribes the boolean result `true`; the code nevertheless returns the
maximum number `3`, because the running AND aggregates only the boolean
operands and is unaffected by the non-positive number. -/
theorem and_claim_counterexample :
    _and [.bool true, .num (-5), .num 3] = some (.num 3) ∧
    ([Value.bool true, .num (-5), .num 3].all truthy) = false ∧
    andClaim [.bool true, .num (-5), .num 3] = .bool true ∧
    Value.num 3 ≠ .bool true := by
  exact ⟨by decide, by decide, by decide, by decide⟩

/-- C3 (amended): the left-to-right scan keeps a running AND over the
boolean operands only, and the maximum of the numeric operands seeded
with `0`; if that AND is true and the maximum is positive the result is
the maximum number, otherwise it is the boolean AND.  (The claim's "all
operands are truthy" is amended to "the AND of the boolean operands is
true": non-positive numeric operands do not influence the boolean
result.) -/
theorem and_amended_scan :
    ∀ vs : List Value, allBoolNum vs = true → _and vs = some (andAmended vs) := by
  intro vs h
  unfold _and andAmended
  rw [andLoop_eval vs true 0 h]
  simp [Bool.true_and]

/-- Witness for C3's amended theorem: all-boolean-true operands with the
positive numbers 2 and 5 produce the maximum number 5, not `true`. -/
theorem and_amended_scan_witness :
    _and [.bool true, .num 2, .num 5] = some (.num 5) := by
  have h := and_amended_scan [.bool true, .num 2, .num 5] (by decide)
  rw [h]
  decide

/-- The array operands of `mergeOp` are extracted exactly. -/
theorem mergeCollect_map_arr :
    ∀ ls : List (List Value), mergeCollect (ls.map Value.arr) = some ls := by
  intro ls
  induction ls with
  | nil => rfl
  | cons l rest ih => simp [mergeCollect, mergeExtract, ih]

/-- C5 (spec-modelled): `merge` over array operands is the one-level
flattening preserving argument order and element order; in particular
`{"merge": [[["a","b"]],[["c","d"]]]}` yields `[["a","b"],["c","d"]]`. -/
theorem merge_flattens_one_level :
    (∀ ls : List (List Value), mergeOp (ls.map Value.arr) = some (.arr ls.flatten)) ∧
    mergeOp [.arr [.arr [.str "a", .str "b"]], .arr [.arr [.str "c", .str "d"]]] =
      some (.arr [.arr [.str "a", .str "b"], .arr [.str "c", .str "d"]]) := by
  refine ⟨?_, rfl⟩
  intro ls
  simp [mergeOp, mergeCollect_map_arr]

/-- `containsSubstr` decides the infix relation. -/
theorem containsSubstr_iff :
    ∀ hay ndl : List Char, containsSubstr hay ndl = true ↔ ndl <:+: hay := by
  intro hay
  induction hay with
  | nil =>
    intro ndl
    simp [containsSubstr, List.isPrefixOf_iff_prefix, List.prefix_nil, List.infix_nil]
  | cons c t ih =>
    intro ndl
    by_cases hp : ndl.isPrefixOf (c :: t) = true
    · have hpre : ndl <+: c :: t := List.isPrefixOf_iff_prefix.mp hp
      simp [containsSubstr, hp, List.infix_cons_iff, Or.inl hpre]
    · have hnp : ¬ ndl <+: (c :: t) := by
        intro hc
        have hb := List.isPrefixOf_iff_prefix.mpr hc
        exact hp hb
      simp [containsSubstr, hp, List.infix_cons_iff, hnp, ih]

/-- Go's `==` on a comparable needle never panics and is exactly
same-kind value equality. -/
theorem goEq_primitive :
    ∀ (v x : Value), primitiveNeedle x = true → goEq v x = some (decide (v = x)) := by
  intro v x hx
  cases v <;> cases x <;> first
    | rfl
    | simp [primitiveNeedle] at hx

/-- The `_in` array scan is membership under direct (same-kind) equality
for a comparable needle. -/
theorem inList_eq_mem :
    ∀ (x : Value) (l : List Value), primitiveNeedle x = true →
      inList x l = some (decide (x ∈ l)) := by
  intro x l hx
  induction l with
  | nil => simp [inList]
  | cons v rest ih =>
    rw [inList, goEq_primitive v x hx]
    by_cases hvx : v = x
    · subst hvx
      simp [List.mem_cons]
    · have hxv : ¬ x = v := fun hc => hvx hc.symm
      simp [hvx, ih, List.mem_cons, hxv]

/-- C6: `in` with a string haystack is substring containment of the
(string) needle; with an array haystack it is direct same-kind membership
with no cross-kind coercion.  In particular `{"in": [2, [1,2,3]]}` is
true while `{"in": ["2", [1,2,3]]}` is false. -/
theorem in_operator_semantics :
    (∀ n h : String, _in (.str n) (.str h) = some true ↔ n.data <:+: h.data) ∧
    (∀ (x : Value) (l : List Value), primitiveNeedle x = true →
        _in x (.arr l) = some (decide (x ∈ l))) ∧
    applyFn (.obj [("in", .arr [.num 2, .arr [.num 1, .num 2, .num 3]])]) (.obj []) =
      some (.bool true) ∧
    applyFn (.obj [("in", .arr [.str "2", .arr [.num 1, .num 2, .num 3]])]) (.obj []) =
      some (.bool false) := by
  refine ⟨?_, ?_, rfl, rfl⟩
  · intro n h
    have he : _in (.str n) (.str h) = some (containsSubstr h.data n.data) := rfl
    rw [he]
    simp only [Option.some.injEq]
    exact containsSubstr_iff h.data n.data
  · intro x l hx
    exact inList_eq_mem x l hx

/-- Witness for C6 at concrete inputs: `"c"` is a substring of `"abcd"`,
and `2` is a member of `[1,2,3]` under direct equality. -/
theorem in_operator_semantics_witness :
    _in (.str "c") (.str "abcd") = some true ∧
    _in (.num 2) (.arr [.num 1, .num 2, .num 3]) = some true := by
  constructor
  · exact (in_operator_semantics.1 "c" "abcd").mpr (by decide)
  · have h := in_operator_semantics.2.1 (.num 2) [.num 1, .num 2, .num 3] rfl
    rw [h]
    decide

/-- Successful binding steps only ever yield the nil error. -/
theorem convMap_some :
    ∀ (c : Option Unit) (e : Option String),
      (c.map fun _ => (none : Option String)) = some e → e = none := by
  intro c e h
  cases c with
  | none => exact Option.noConfusion h
  | some u => exact (Option.some.inj h).symm

/-- The evaluation-plus-binding pipeline of `Apply` only ever yields the
nil error. -/
theorem bindConv_some :
    ∀ (x : Option Value) (k : TargetKind) (e : Option String),
      (x.bind fun res => (convertToResult k res).map fun _ => (none : Option String)) =
          some e → e = none := by
  intro x k e h
  cases x with
  | none => exact Option.noConfusion h
  | some res => exact convMap_some _ _ h

/-- C10: `Apply` returns a non-nil error only for an invalid result
argument (not a non-nil pointer, or not addressable); whenever the call
runs to completion (`some e`) with a valid result argument, the returned
error `e` is the nil error — no property of the rule or data contents
produces a returned error value. -/
theorem apply_error_only_for_result_arg :
    (∀ (rules data : Value) (r : ResultArg) (e : Option String),
        r.isNonNilPtr = true → r.addressable = true →
        Apply rules data r = some e → e = none) ∧
    (∀ (rules data : Value) (r : ResultArg) (msg : String),
        Apply rules data r = some (some msg) →
        r.isNonNilPtr = false ∨ r.addressable = false) := by
  have key : ∀ (rules data : Value) (k : TargetKind) (e : Option String),
      Apply rules data ⟨true, true, k⟩ = some e → e = none := by
    intro rules data k e h
    unfold Apply at h
    simp only [Bool.not_true, Bool.false_eq_true, if_false] at h
    cases rules with
    | obj o => exact bindConv_some _ _ _ h
    | null => exact convMap_some _ _ h
    | bool b => exact convMap_some _ _ h
    | num q => exact convMap_some _ _ h
    | int n => exact convMap_some _ _ h
    | str s => exact convMap_some _ _ h
    | arr l => exact convMap_some _ _ h
  constructor
  · intro rules data r e h1 h2 happ
    obtain ⟨p, a, k⟩ := r
    cases h1
    cases h2
    exact key rules data k e happ
  · intro rules data r msg happ
    obtain ⟨p, a, k⟩ := r
    cases p with
    | false => exact Or.inl rfl
    | true =>
      cases a with
      | false => exact Or.inr rfl
      | true =>
        have := key rules data k (some msg) happ
        cases this

/-- Witness for C10 at concrete inputs: a valid result argument gets the
nil error even though the rule is a bare literal, and an invalid one is
reported. -/
theorem apply_error_only_for_result_arg_witness :
    Apply (.bool true) (.obj []) ⟨true, true, .tbool⟩ = some none ∧
    ((⟨false, true, .tbool⟩ : ResultArg).isNonNilPtr = false ∨
      (⟨false, true, .tbool⟩ : ResultArg).addressable = false) := by
  constructor
  · have h := apply_error_only_for_result_arg.1 (.bool true) (.obj [])
      ⟨true, true, .tbool⟩ none rfl rfl rfl
    rfl
  · exact apply_error_only_for_result_arg.2 (.bool true) (.obj [])
      ⟨false, true, .tbool⟩ "Result must be a pointer" rfl
